import Mathlib

/-!
Verification of the medication question-answering backend
(`medication_processor.py` and `question_answering.py`).

The Python code is shallowly embedded: strings are Lean `String`s
(manipulated through their character lists), Python dicts are association
lists, rows of the loaded pandas dataframe are records, and any Python
expression that can raise (dict indexing `d[k]`, attribute access on a
non-string) is modelled in the `Option` monad, `none` standing for a
raised exception.  Python's ASCII-range text operations (`str.lower`,
the `\s` and `\w` regex classes) are modelled on the ASCII range, which
is the range the dataset and the questions of interest use.
-/

/-- The ASCII range of Python's `\s` regex class and of `str.strip`:
space, tab, newline, carriage return, vertical tab, form feed. -/
def pySpace (c : Char) : Bool :=
  c = ' ' || c = '\t' || c = '\n' || c = '\r' || c = '\x0b' || c = '\x0c'

/-- ASCII model of Python's `str.lower` on one character. -/
def pyLowerChar (c : Char) : Char :=
  if 65 ≤ c.toNat ∧ c.toNat ≤ 90 then Char.ofNat (c.toNat + 32) else c

/-- ASCII model of Python's `str.lower`. -/
def pyLower (s : String) : String :=
  String.mk (s.toList.map pyLowerChar)

/-- Python's substring test `needle in hay`. -/
def pyIn (needle hay : String) : Bool :=
  decide (needle.toList <:+: hay.toList)

/-- One pass of `re.sub(r'\s+', ' ', text)`: every maximal run of
whitespace becomes a single space.  The boolean records whether the
previous character belonged to a whitespace run. -/
def collapseWS : Bool → List Char → List Char
  | _, [] => []
  | prev, c :: cs =>
    match pySpace c, prev with
    | true, true => collapseWS true cs
    | true, false => ' ' :: collapseWS true cs
    | false, _ => c :: collapseWS false cs

/-- Remove trailing whitespace (the right half of Python's `str.strip`). -/
def trimRightWS : List Char → List Char
  | [] => []
  | c :: cs =>
    match trimRightWS cs with
    | [] =>
      match pySpace c with
      | true => []
      | false => [c]
    | r => c :: r

/-- Python's `str.strip()`: drop leading and trailing whitespace. -/
def pyStrip (l : List Char) : List Char :=
  trimRightWS (l.dropWhile pySpace)

/-- `QuestionAnsweringEngine._preprocess_text` (question_answering.py,
lines 72-88): lowercase, collapse whitespace runs with
`re.sub(r'\s+', ' ', text)`, then `strip()`.  It does not touch
punctuation. -/
def preprocess_text (text : String) : String :=
  String.mk (pyStrip (collapseWS false (text.toList.map pyLowerChar)))

/-- The spec's description of the normalizer (spec §4.2), modelled from its
words for comparison with `preprocess_text`: lowercase, strip all ASCII
punctuation characters, collapse and trim whitespace. -/
def specNormalize (text : String) : String :=
  let punct := "!\"#$%&'()*+,-./:;<=>?@[\\]^_`\x7b|\x7d~".toList
  String.mk (pyStrip (collapseWS false
    ((text.toList.map pyLowerChar).filter (fun c => decide (c ∉ punct)))))

theorem toList_mk (l : List Char) : (String.mk l).toList = l := rfl

theorem bool_not_true {b : Bool} (h : ¬b = true) : b = false := by
  cases b
  · rfl
  · exact absurd rfl h

theorem pyLowerChar_of_not_upper {c : Char} (h : ¬(65 ≤ c.toNat ∧ c.toNat ≤ 90)) :
    pyLowerChar c = c := by
  unfold pyLowerChar
  exact if_neg h

theorem pyLowerChar_upper {c : Char} (h1 : 65 ≤ c.toNat) (h2 : c.toNat ≤ 90) :
    97 ≤ (pyLowerChar c).toNat ∧ (pyLowerChar c).toNat ≤ 122 := by
  have hc : c = Char.ofNat c.toNat := (Char.ofNat_toNat c).symm
  rw [hc]
  set n := c.toNat with hn
  interval_cases n <;> decide

theorem pyLowerChar_idem (c : Char) : pyLowerChar (pyLowerChar c) = pyLowerChar c := by
  by_cases h : 65 ≤ c.toNat ∧ c.toNat ≤ 90
  · have h2 := pyLowerChar_upper h.1 h.2
    exact pyLowerChar_of_not_upper (by omega)
  · rw [pyLowerChar_of_not_upper h]
    exact pyLowerChar_of_not_upper h

theorem pySpace_toNat {c : Char} (h : pySpace c = true) : c.toNat ≤ 32 := by
  unfold pySpace at h
  simp only [Bool.or_eq_true, decide_eq_true_eq] at h
  rcases h with ((((h | h) | h) | h) | h) | h <;> subst h <;> decide

theorem pySpace_of_high {c : Char} (h : 65 ≤ c.toNat) : pySpace c = false := by
  cases hs : pySpace c with
  | false => rfl
  | true => exact absurd (pySpace_toNat hs) (by omega)

theorem pyLowerChar_of_space {c : Char} (h : pySpace c = true) : pyLowerChar c = c := by
  have := pySpace_toNat h
  exact pyLowerChar_of_not_upper (by omega)

theorem pySpace_pyLowerChar (c : Char) : pySpace (pyLowerChar c) = pySpace c := by
  by_cases h : 65 ≤ c.toNat ∧ c.toNat ≤ 90
  · have h2 := pyLowerChar_upper h.1 h.2
    rw [pySpace_of_high (by omega), pySpace_of_high (by omega)]
  · rw [pyLowerChar_of_not_upper h]

theorem pySpace_space : pySpace ' ' = true := rfl

/-- Characters emitted by `collapseWS` are either the inserted `' '` or
non-whitespace characters of the input. -/
theorem mem_collapseWS {c : Char} :
    ∀ (b : Bool) (l : List Char), c ∈ collapseWS b l →
      c = ' ' ∨ (c ∈ l ∧ pySpace c = false) := by
  intro b l
  induction l generalizing b with
  | nil => intro h; simp [collapseWS] at h
  | cons d ds ih =>
    intro h
    cases hd : pySpace d with
    | true =>
      cases b with
      | true =>
        simp only [collapseWS, hd] at h
        rcases ih true h with h' | h'
        · exact Or.inl h'
        · exact Or.inr ⟨List.mem_cons_of_mem _ h'.1, h'.2⟩
      | false =>
        simp only [collapseWS, hd] at h
        rcases List.mem_cons.mp h with h | h
        · exact Or.inl h
        · rcases ih true h with h' | h'
          · exact Or.inl h'
          · exact Or.inr ⟨List.mem_cons_of_mem _ h'.1, h'.2⟩
    | false =>
      simp only [collapseWS, hd] at h
      rcases List.mem_cons.mp h with h | h
      · subst h
        exact Or.inr ⟨List.mem_cons_self _ _, hd⟩
      · rcases ih false h with h' | h'
        · exact Or.inl h'
        · exact Or.inr ⟨List.mem_cons_of_mem _ h'.1, h'.2⟩

/-- The adjacency relation "no whitespace directly after whitespace". -/
def NoWsRun (l : List Char) : Prop :=
  List.Chain' (fun a b => pySpace a = true → pySpace b = false) l

/-- The head of the list is not whitespace (vacuously true of `[]`). -/
def HeadNS : List Char → Prop
  | [] => True
  | c :: _ => pySpace c = false

/-- The last element of the list is not whitespace (vacuously true of `[]`). -/
def LastNS (l : List Char) : Prop :=
  ∀ c, l.getLast? = some c → pySpace c = false

theorem headNS_iff (l : List Char) :
    HeadNS l ↔ ∀ c, l.head? = some c → pySpace c = false := by
  cases l with
  | nil => simp [HeadNS]
  | cons c cs => simp [HeadNS]

theorem collapseWS_headNS : ∀ l : List Char, HeadNS (collapseWS true l) := by
  intro l
  induction l with
  | nil => trivial
  | cons d ds ih =>
    cases hd : pySpace d with
    | true => simp only [collapseWS, hd]; exact ih
    | false => simp only [collapseWS, hd]; exact hd

theorem collapseWS_noWsRun : ∀ (l : List Char) (b : Bool), NoWsRun (collapseWS b l) := by
  intro l
  induction l with
  | nil => intro b; exact List.chain'_nil
  | cons d ds ih =>
    intro b
    cases hd : pySpace d with
    | true =>
      cases b with
      | true => simpa only [collapseWS, hd] using ih true
      | false =>
        simp only [collapseWS, hd]
        refine List.chain'_cons'.mpr ⟨?_, ih true⟩
        intro y hy _
        exact (headNS_iff _).mp (collapseWS_headNS ds) y hy
    | false =>
      simp only [collapseWS, hd]
      refine List.chain'_cons'.mpr ⟨?_, ih false⟩
      intro y _ hcontra
      rw [hd] at hcontra
      cases hcontra

/-- On a list whose whitespace characters are all `' '`, with no whitespace
runs and (when `b = true`) a non-whitespace head, `collapseWS` is the
identity. -/
theorem collapseWS_eq_self :
    ∀ (l : List Char) (b : Bool),
      (∀ c ∈ l, pySpace c = true → c = ' ') →
      NoWsRun l → (b = true → HeadNS l) →
      collapseWS b l = l := by
  intro l
  induction l with
  | nil => intro b _ _ _; rfl
  | cons d ds ih =>
    intro b honly hchain hhead
    cases hd : pySpace d with
    | true =>
      have hd' : d = ' ' := honly d (List.mem_cons_self _ _) hd
      cases b with
      | true =>
        have : pySpace d = false := hhead rfl
        rw [hd] at this
        cases this
      | false =>
        simp only [collapseWS, hd]
        rw [hd']
        congr 1
        refine ih true (fun c hc => honly c (List.mem_cons_of_mem _ hc))
          (List.chain'_cons'.mp hchain).2 ?_
        intro _
        rw [headNS_iff]
        intro c hc
        exact (List.chain'_cons'.mp hchain).1 c hc hd
    | false =>
      simp only [collapseWS, hd]
      congr 1
      exact ih false (fun c hc => honly c (List.mem_cons_of_mem _ hc))
        (List.chain'_cons'.mp hchain).2 (fun h => by cases h)

theorem trimRightWS_leading : ∀ l : List Char, trimRightWS l <+: l := by
  intro l
  induction l with
  | nil => exact List.prefix_refl _
  | cons d ds ih =>
    simp only [trimRightWS]
    cases h : trimRightWS ds with
    | nil =>
      cases pySpace d
      · exact ⟨ds, rfl⟩
      · exact ⟨d :: ds, rfl⟩
    | cons r rs =>
      rw [h] at ih
      exact List.cons_prefix_cons.mpr ⟨rfl, ih⟩

theorem trimRightWS_lastNS : ∀ l : List Char, LastNS (trimRightWS l) := by
  intro l
  induction l with
  | nil => intro c hc; simp [trimRightWS] at hc
  | cons d ds ih =>
    intro c hc
    simp only [trimRightWS] at hc
    cases h : trimRightWS ds with
    | nil =>
      rw [h] at hc
      cases hd : pySpace d with
      | true => rw [hd] at hc; simp at hc
      | false =>
        rw [hd] at hc
        rw [List.getLast?_singleton] at hc
        obtain rfl : d = c := Option.some_inj.mp hc
        exact hd
    | cons r rs =>
      rw [h] at hc
      rw [List.getLast?_cons_cons] at hc
      rw [← h] at hc
      exact ih c hc

theorem trimRightWS_eq_self : ∀ l : List Char, LastNS l → trimRightWS l = l := by
  intro l
  induction l with
  | nil => intro _; rfl
  | cons d ds ih =>
    intro hlast
    simp only [trimRightWS]
    cases hds : ds with
    | nil =>
      subst hds
      have h0 : pySpace d = false := hlast d (by simp)
      simp [trimRightWS, h0]
    | cons e es =>
      subst hds
      have hds' : trimRightWS (e :: es) = e :: es := by
        refine ih ?_
        intro c hc
        refine hlast c ?_
        rw [List.getLast?_cons_cons]
        exact hc
      rw [hds']

theorem dropWhile_headNS (l : List Char) : HeadNS (l.dropWhile pySpace) := by
  induction l with
  | nil => trivial
  | cons d ds ih =>
    cases hd : pySpace d with
    | true =>
      rw [List.dropWhile_cons_of_pos hd]
      exact ih
    | false =>
      rw [List.dropWhile_cons_of_neg (by rw [hd]; simp)]
      exact hd

theorem dropWhile_eq_self_of_headNS {l : List Char} (h : HeadNS l) :
    l.dropWhile pySpace = l := by
  cases l with
  | nil => rfl
  | cons d ds =>
    exact List.dropWhile_cons_of_neg (by rw [show pySpace d = false from h]; simp)

/-- `pyStrip` leaves a list alone when its two ends are not whitespace. -/
theorem pyStrip_eq_self {l : List Char} (h1 : HeadNS l) (h2 : LastNS l) :
    pyStrip l = l := by
  unfold pyStrip
  rw [dropWhile_eq_self_of_headNS h1]
  exact trimRightWS_eq_self l h2

theorem headNS_of_prefix {l r : List Char} (h : r <+: l) (hl : HeadNS l) : HeadNS r := by
  cases r with
  | nil => trivial
  | cons c cs =>
    obtain ⟨t, ht⟩ := h
    subst ht
    exact hl

theorem pyStrip_headNS (l : List Char) : HeadNS (pyStrip l) :=
  headNS_of_prefix (trimRightWS_leading _) (dropWhile_headNS l)

theorem pyStrip_lastNS (l : List Char) : LastNS (pyStrip l) :=
  trimRightWS_lastNS _

theorem pyStrip_idem (l : List Char) : pyStrip (pyStrip l) = pyStrip l :=
  pyStrip_eq_self (pyStrip_headNS l) (pyStrip_lastNS l)

theorem pyStrip_sublist (l : List Char) : List.Sublist (pyStrip l) l :=
  List.Sublist.trans (trimRightWS_leading _).sublist (List.dropWhile_sublist _)

theorem pyStrip_noWsRun {l : List Char} (h : NoWsRun l) : NoWsRun (pyStrip l) := by
  have h1 : NoWsRun (l.dropWhile pySpace) :=
    List.Chain'.suffix h (List.dropWhile_suffix _)
  exact List.Chain'.prefix h1 (trimRightWS_leading _)

theorem map_eq_self_of_fixed {f : Char → Char} :
    ∀ {l : List Char}, (∀ c ∈ l, f c = c) → l.map f = l := by
  intro l
  induction l with
  | nil => intro _; rfl
  | cons d ds ih =>
    intro h
    simp only [List.map_cons]
    rw [h d (List.mem_cons_self _ _), ih (fun c hc => h c (List.mem_cons_of_mem _ hc))]

/-- claim C5 counterexample: the claim says `_preprocess_text` removes every
ASCII punctuation character; on `"a,b"` the code keeps the comma, while the
spec's described normalizer deletes it. -/
theorem preprocess_keeps_punctuation :
    preprocess_text "a,b" = "a,b" ∧ specNormalize "a,b" = "ab" ∧
      preprocess_text "a,b" ≠ specNormalize "a,b" :=
  ⟨by decide, by decide, by decide⟩

/-- claim C5 (amended): `_preprocess_text` lowercases its input and collapses
whitespace runs to single spaces while trimming both ends (it does not remove
punctuation); it is pure and deterministic, and it is idempotent:
`normalize(normalize(x)) = normalize(x)` for every string `x`. -/
theorem preprocess_text_idem (x : String) :
    preprocess_text (preprocess_text x) = preprocess_text x := by
  unfold preprocess_text
  rw [toList_mk]
  set u := x.toList.map pyLowerChar with hu
  set z := collapseWS false u with hz
  set w := pyStrip z with hw
  have honly_z : ∀ c ∈ z, pySpace c = true → c = ' ' := by
    intro c hc hcs
    rcases mem_collapseWS false u hc with h | h
    · exact h
    · rw [hcs] at h; cases h.2
  have hlower_z : ∀ c ∈ z, pyLowerChar c = c := by
    intro c hc
    rcases mem_collapseWS false u hc with h | h
    · rw [h]; exact pyLowerChar_of_space pySpace_space
    · obtain ⟨d, _, hd⟩ := List.mem_map.mp h.1
      rw [← hd]
      exact pyLowerChar_idem d
  have hlower_w : w.map pyLowerChar = w :=
    map_eq_self_of_fixed (fun c hc => hlower_z c ((pyStrip_sublist z).mem hc))
  rw [hlower_w]
  have hchain_w : NoWsRun w := pyStrip_noWsRun (collapseWS_noWsRun u false)
  have honly_w : ∀ c ∈ w, pySpace c = true → c = ' ' :=
    fun c hc => honly_z c ((pyStrip_sublist z).mem hc)
  rw [collapseWS_eq_self w false honly_w hchain_w (fun h => by cases h)]
  rw [hw, pyStrip_idem]

/-- Python's `\w` regex class (ASCII range): letters, digits, underscore. -/
def isWordChar (c : Char) : Bool :=
  c.isAlphanum || c = '_'

/-- A character matched by `[\w\s]`. -/
def wsChar (c : Char) : Bool :=
  isWordChar c || pySpace c

/-- Match a literal list of characters at the start of the text, returning
the remaining text on success. -/
def matchLit : List Char → List Char → Option (List Char)
  | [], rest => some rest
  | _ :: _, [] => none
  | p :: ps, c :: cs => if p = c then matchLit ps cs else none

/-- The greedy capture `([\w\s]+)` at the end of a regex: the maximal
nonempty run of word/whitespace characters at the current position. -/
def captureRun (l : List Char) : Option (List Char) :=
  match l.takeWhile wsChar with
  | [] => none
  | run => some run

/-- The seven templates of `_identify_category_query`
(question_answering.py, lines 185-193).  `optS stem` stands for
`r'<stem>s? for ([\w\s]+)'`, `noS stem` for `r'<stem> for ([\w\s]+)'` and
`whatVerb` for `r'what (treats|cures|helps with) ([\w\s]+)'`. -/
inductive CondTemplate where
  | optS (stem : String)
  | noS (stem : String)
  | whatVerb
deriving DecidableEq

/-- The source text of each template's regex, used by the code's
`pattern.endswith('([\w\s]+)')` test. -/
def CondTemplate.rxString : CondTemplate → String
  | .optS stem => stem ++ "s? for ([\\w\\s]+)"
  | .noS stem => stem ++ " for ([\\w\\s]+)"
  | .whatVerb => "what (treats|cures|helps with) ([\\w\\s]+)"

/-- One alternative of the verb group of the `what ...` template: the
verb, a space, then the greedy capture.  Returns (group1, group2). -/
def tryVerb (verb : String) (rest : List Char) : Option (List Char × Option (List Char)) :=
  match matchLit (verb ++ " ").toList rest with
  | some r2 => (captureRun r2).map (fun cap => (verb.toList, some cap))
  | none => none

/-- Try to match a template at the current position, with the regex
engine's backtracking order: for `<stem>s?` the branch with `s` is tried
first; the alternatives of `(treats|cures|helps with)` are tried left to
right.  Returns the raw captures (group1, group2). -/
def condTryAt : CondTemplate → List Char → Option (List Char × Option (List Char))
  | .optS stem, l =>
    (match matchLit (stem ++ "s for ").toList l with
     | some rest => (captureRun rest).map (fun cap => (cap, none))
     | none => none).orElse (fun _ =>
       match matchLit (stem ++ " for ").toList l with
       | some rest => (captureRun rest).map (fun cap => (cap, none))
       | none => none)
  | .noS stem, l =>
    match matchLit (stem ++ " for ").toList l with
    | some rest => (captureRun rest).map (fun cap => (cap, none))
    | none => none
  | .whatVerb, l =>
    match matchLit "what ".toList l with
    | some rest =>
      (tryVerb "treats" rest).orElse (fun _ =>
        (tryVerb "cures" rest).orElse (fun _ => tryVerb "helps with" rest))
    | none => none

/-- Python's `str.endswith`. -/
def pyEndsWith (s suffix : String) : Bool :=
  decide (suffix.toList <:+ s.toList)

/-- `re.search` for a template: try every start position left to right. -/
def condSearch (t : CondTemplate) : List Char → Option (List Char × Option (List Char))
  | [] => condTryAt t []
  | c :: cs =>
    match condTryAt t (c :: cs) with
    | some r => some r
    | none => condSearch t cs

/-- The template list of `_identify_category_query`, in source order. -/
def cond_patterns : List CondTemplate :=
  [.optS "medication", .optS "drug", .noS "medicine", .noS "treatment",
   .noS "cure", .noS "remedy", .whatVerb]

/-- `QuestionAnsweringEngine._identify_category_query`
(question_answering.py, lines 172-204).  For the first matching template
the code picks `group(1)` when the regex source text ends with
`'([\w\s]+)'` and `group(2)` otherwise; since every one of the seven
regexes ends with that suffix (including the `what (treats|...)` one),
the `group(2)` branch is dead code. -/
def identify_category_query (text : String) : Option String :=
  let processed := preprocess_text text
  cond_patterns.findSome? (fun t =>
    match condSearch t processed.toList with
    | some (g1, g2) =>
      if pyEndsWith t.rxString "([\\w\\s]+)" then some (String.mk (pyStrip g1))
      else some (String.mk (pyStrip (g2.getD [])))
    | none => none)

/-- Every one of the seven condition regexes ends with the literal
`([\w\s]+)` that `_identify_category_query` tests for with `endswith`,
so the `group(2)` branch for the `what (treats|cures|helps with)` template
is unreachable. -/
theorem cond_patterns_all_end_with_capture :
    ∀ t ∈ cond_patterns, pyEndsWith t.rxString "([\\w\\s]+)" = true := by
  decide

/-- claim C2 (code bug): condition extraction does return the trimmed capture
of the first matching template ("medications for headache" yields
"headache"), but for the last template `what (treats|cures|helps with) X`
it returns the verb captured by group 1 ("treats") instead of the phrase
after it ("headache"): the code's `pattern.endswith('([\w\s]+)')` test is
true for all seven patterns, so the `group(2)` branch never runs. -/
theorem identify_category_query_returns_verb :
    identify_category_query "medications for headache" = some "headache" ∧
      identify_category_query "what treats headache" = some "treats" :=
  ⟨by decide, by decide⟩

/-- `\b` between two adjacent positions of the text: the wordness of the
two neighbouring characters differs (ends of the string count as
non-word). -/
def isBoundary : Option Char → Option Char → Bool
  | none, none => false
  | none, some c => isWordChar c
  | some c, none => isWordChar c
  | some a, some b => isWordChar a != isWordChar b

/-- Match `\b<pat>\b` at the current position of the text, `prev` being
the character just before that position (`none` at the start). -/
def wbMatchHere (pat : List Char) (prev : Option Char) (text : List Char) : Bool :=
  isBoundary prev text.head? &&
    match matchLit pat text with
    | some rest => isBoundary pat.getLast? rest.head?
    | none => false

def wbSearchAux (pat : List Char) : Option Char → List Char → Bool
  | prev, [] => wbMatchHere pat prev []
  | prev, c :: cs => wbMatchHere pat prev (c :: cs) || wbSearchAux pat (some c) cs

/-- `re.search(r'\b' + pattern + r'\b', text)` for the literal patterns of
the intent table (every one of them starts and ends with a word
character; `what\'s` unescapes to `what's`). -/
def wbSearch (pat text : String) : Bool :=
  wbSearchAux pat.toList none text.toList

/-- `QuestionAnsweringEngine.intent_patterns` (question_answering.py,
lines 31-70), with each regex pattern read as the literal string it
matches. -/
def intent_patterns : List (String × List String) :=
  [("side_effects", ["side effect", "adverse", "reaction", "negative", "bad effect",
      "harmful", "danger", "risk", "warning"]),
   ("price", ["price", "cost", "how much", "expensive", "cheap", "afford"]),
   ("usage", ["use", "treat", "for", "indication", "what is", "what's",
      "help with", "cure", "heal", "remedy", "therapy", "treatment"]),
   ("dosage", ["dose", "dosage", "how much", "how many", "take", "frequency",
      "daily", "times a day", "administration", "how to take"]),
   ("category", ["category", "type", "class", "group", "similar to", "classification"]),
   ("comparison", ["compare", "versus", "vs", "difference", "better", "worse",
      "alternative", "substitute", "replacement"]),
   ("availability", ["available", "find", "get", "buy", "purchase", "obtain",
      "where can i", "pharmacy", "store", "online"]),
   ("storage", ["store", "keep", "refrigerate", "temperature", "shelf life",
      "expiration", "expire", "stability"]),
   ("interaction", ["interact", "interaction", "together with", "combine", "mix",
      "along with", "simultaneously", "conflict"]),
   ("pregnancy", ["pregnancy", "pregnant", "breastfeeding", "nursing", "lactation",
      "expecting", "trimester"])]

/-- The Python dict update `matched_intents[intent] += 1` /
`matched_intents[intent] = 1`: keys of a dict are unique, so updating the
first occurrence in place models the assignment; a new key is appended,
preserving insertion order. -/
def bump : List (String × Nat) → String → List (String × Nat)
  | [], k => [(k, 1)]
  | p :: ps, k => if p.1 = k then (p.1, p.2 + 1) :: ps else p :: bump ps k

/-- The `matched_intents` dict built by `_identify_intent`
(question_answering.py, lines 155-165) over the already-preprocessed
text. -/
def matched_intents (processed : String) : List (String × Nat) :=
  intent_patterns.foldl (fun acc e =>
    e.2.foldl (fun acc2 pat => if wbSearch pat processed then bump acc2 e.1 else acc2) acc) []

/-- Dict lookup in the matched-intents table. -/
def lookupCount (m : List (String × Nat)) (k : String) : Option Nat :=
  (m.find? (fun p => decide (p.1 = k))).map (·.2)

/-- Python's `max(items, key=lambda x: x[1])` over the dict items: the
first item of maximal value wins (later items replace the champion only
when strictly greater). -/
def pyMaxBySnd : List (String × Nat) → Option (String × Nat)
  | [] => none
  | x :: xs => some (xs.foldl (fun best y => if y.2 > best.2 then y else best) x)

/-- `QuestionAnsweringEngine._identify_intent` (question_answering.py,
lines 145-170). -/
def identify_intent (text : String) : String :=
  match pyMaxBySnd (matched_intents (preprocess_text text)) with
  | some best => best.1
  | none => "general_info"

/-- The match count as described by the claim: a pattern without internal
spaces is matched as a whole word, a multi-word phrase as a plain
substring.  Modelled from the spec's words for comparison with the code's
count. -/
def specMatchCount (pats : List String) (text : String) : Nat :=
  pats.countP (fun pat =>
    if pat.toList.contains ' ' then pyIn pat text else wbSearch pat text)

/-- How a label's count evolves under the per-pattern fold: an existing
count grows by `c`, an absent label appears only when `c > 0`. -/
def combineCount : Option Nat → Nat → Option Nat
  | some v, c => some (v + c)
  | none, c => if c = 0 then none else some c

theorem bump_lookup_self : ∀ (m : List (String × Nat)) (k : String),
    lookupCount (bump m k) k = some ((lookupCount m k).getD 0 + 1) := by
  intro m k
  induction m with
  | nil => simp [bump, lookupCount, List.find?]
  | cons p ps ih =>
    by_cases hp : p.1 = k
    · simp [bump, hp, lookupCount, List.find?]
    · simp only [bump, hp, if_false, if_neg hp]
      simp only [lookupCount, List.find?, decide_eq_true_eq, hp, decide_False] at ih ⊢
      exact ih

theorem bump_lookup_other {k k' : String} (h : k' ≠ k) :
    ∀ m : List (String × Nat), lookupCount (bump m k) k' = lookupCount m k' := by
  have hkk : (k = k') = False := eq_false (fun hh => h hh.symm)
  intro m
  induction m with
  | nil => simp [bump, lookupCount, List.find?, hkk]
  | cons p ps ih =>
    by_cases hp : p.1 = k
    · simp [bump, hp, lookupCount, List.find?, hkk]
    · simp only [bump, if_neg hp]
      by_cases hq : p.1 = k'
      · simp [lookupCount, List.find?, hq]
      · simp only [lookupCount, List.find?, hq, decide_False] at ih ⊢
        exact ih

theorem combineCount_succ (o : Option Nat) (c : Nat) :
    combineCount o (c + 1) = some (o.getD 0 + 1 + c) := by
  cases o <;> simp [combineCount] <;> omega

theorem innerFold_lookup (L : String) (s : String) :
    ∀ (pats : List String) (acc : List (String × Nat)) (k : String),
      lookupCount (pats.foldl (fun a pat => if wbSearch pat s then bump a L else a) acc) k =
        if k = L then
          combineCount (lookupCount acc k) (pats.countP (fun pat => wbSearch pat s))
        else lookupCount acc k := by
  intro pats
  induction pats with
  | nil =>
    intro acc k
    by_cases hk : k = L
    · subst hk
      simp only [List.foldl_nil, List.countP_nil, if_pos rfl]
      cases h0 : lookupCount acc k <;> simp [combineCount, h0]
    · simp [List.foldl_nil, hk]
  | cons p rest ih =>
    intro acc k
    cases hw : wbSearch p s with
    | false =>
      simp only [List.foldl_cons, List.countP_cons, hw, Bool.false_eq_true, if_false,
        add_zero]
      exact ih acc k
    | true =>
      simp only [List.foldl_cons, List.countP_cons, hw, if_true]
      rw [ih (bump acc L) k]
      by_cases hk : k = L
      · subst hk
        rw [if_pos rfl, if_pos rfl, bump_lookup_self, combineCount_succ]
        simp [combineCount]
      · rw [if_neg hk, if_neg hk]
        exact bump_lookup_other hk acc

/-- The outer fold over the whole intent table: labels not occurring in
the remaining entries keep their count. -/
theorem outerFold_lookup_notmem (s : String) :
    ∀ (entries : List (String × List String)) (acc : List (String × Nat)) (k : String),
      (∀ e ∈ entries, e.1 ≠ k) →
      lookupCount (entries.foldl (fun a e =>
        e.2.foldl (fun a2 pat => if wbSearch pat s then bump a2 e.1 else a2) a) acc) k =
        lookupCount acc k := by
  intro entries
  induction entries with
  | nil => intro acc k _; rfl
  | cons e rest ih =>
    intro acc k hmem
    rw [List.foldl_cons]
    rw [ih _ k (fun x hx => hmem x (List.mem_cons_of_mem _ hx))]
    rw [innerFold_lookup]
    rw [if_neg (fun hk => hmem e (List.mem_cons_self _ _) hk.symm)]

theorem outerFold_lookup (s : String) :
    ∀ (entries : List (String × List String)) (acc : List (String × Nat))
      (k : String) (pats : List String),
      (entries.map Prod.fst).Nodup → (k, pats) ∈ entries →
      lookupCount (entries.foldl (fun a e =>
        e.2.foldl (fun a2 pat => if wbSearch pat s then bump a2 e.1 else a2) a) acc) k =
        combineCount (lookupCount acc k) (pats.countP (fun pat => wbSearch pat s)) := by
  intro entries
  induction entries with
  | nil => intro acc k pats _ hmem; cases hmem
  | cons e rest ih =>
    intro acc k pats hnd hmem
    rw [List.foldl_cons]
    rcases List.mem_cons.mp hmem with h | h
    · subst h
      rw [outerFold_lookup_notmem s rest _ k ?nm]
      case nm =>
        intro x hx hx1
        have : k ∈ rest.map Prod.fst := by
          rw [← hx1]; exact List.mem_map_of_mem _ hx
        exact (List.nodup_cons.mp hnd).1 this
      rw [innerFold_lookup, if_pos rfl]
    · have hne : e.1 ≠ k := by
        intro hk
        have : k ∈ rest.map Prod.fst := by
          have : (k, pats).1 ∈ rest.map Prod.fst := List.mem_map_of_mem _ h
          exact this
        rw [← hk] at this
        exact (List.nodup_cons.mp hnd).1 this
      rw [ih _ k pats (List.nodup_cons.mp hnd).2 h]
      rw [innerFold_lookup, if_neg (fun hk => hne hk.symm)]

theorem intent_patterns_labels_nodup : (intent_patterns.map Prod.fst).Nodup := by
  decide

/-- claim C4 (amended): for every label of the intent classifier, the match
count recorded by `_identify_intent` is the number of the label's patterns
that match the preprocessed text, each pattern counted at most once — but
every pattern, single word or multi-word phrase, is matched as
`\b<pattern>\b`, i.e. with word boundaries at both ends, not as a plain
substring (a label with zero matching patterns is simply absent from the
count table). -/
theorem intent_match_count (text intent : String) (pats : List String)
    (h : (intent, pats) ∈ intent_patterns) :
    lookupCount (matched_intents (preprocess_text text)) intent =
      (if pats.countP (fun pat => wbSearch pat (preprocess_text text)) = 0 then none
       else some (pats.countP (fun pat => wbSearch pat (preprocess_text text)))) := by
  unfold matched_intents
  rw [outerFold_lookup (preprocess_text text) intent_patterns [] intent pats
    intent_patterns_labels_nodup h]
  rfl

/-- witness for `intent_match_count`: the `price` row of the intent table at
the question "how much does it cost" (count 2: patterns `cost` and
`how much`). -/
theorem intent_match_count_witness :
    ("price", ["price", "cost", "how much", "expensive", "cheap", "afford"])
        ∈ intent_patterns ∧
      lookupCount (matched_intents (preprocess_text "how much does it cost")) "price" =
        (if (["price", "cost", "how much", "expensive", "cheap", "afford"].countP
              (fun pat => wbSearch pat (preprocess_text "how much does it cost"))) = 0
         then none
         else some (["price", "cost", "how much", "expensive", "cheap", "afford"].countP
              (fun pat => wbSearch pat (preprocess_text "how much does it cost")))) :=
  ⟨by decide, intent_match_count "how much does it cost" "price" _ (by decide)⟩

/-- claim C4 counterexample: the multi-word phrase pattern `how much` of the
`price` label occurs as a plain substring of "xhow much" but not with a word
boundary in front, so the code records no match for `price` while the
claim's count is 1. -/
theorem intent_count_differs_from_substring_count :
    lookupCount (matched_intents (preprocess_text "xhow much")) "price" = none ∧
      specMatchCount
        (((intent_patterns.find? (fun e => decide (e.1 = "price"))).map Prod.snd).getD [])
        (preprocess_text "xhow much") = 1 :=
  ⟨by decide, by decide⟩

/-- A value stored in a medication dict: a string field or the
side-effect list. -/
inductive FVal where
  | s (v : String)
  | l (v : List String)
deriving DecidableEq

/-- A medication object is a Python dict (`_create_medications_dict`
builds one per row); modelled as an association list. -/
abbrev MedDict := List (String × FVal)

/-- Python dict indexing `med[k]`: `none` models a raised `KeyError`. -/
def dget (med : MedDict) (k : String) : Option FVal :=
  (med.find? (fun p => decide (p.1 = k))).map (·.2)

/-- `med[k]` followed by a string operation (`.lower()`): `none` also
models the `AttributeError` raised on a non-string value. -/
def dgetS (med : MedDict) (k : String) : Option String :=
  match dget med k with
  | some (.s v) => some v
  | _ => none

/-- Digit-string value of an ASCII numeral. -/
def digitsVal (l : List Char) : ℕ :=
  l.foldl (fun n c => n * 10 + (c.toNat - 48)) 0

/-- Modelled abstraction of `pd.to_numeric(price, errors='coerce')`
(medication_processor.py, line 68): an optionally signed decimal numeral
parses to its value, anything else coerces to NaN (`none`). -/
def pyToNumeric (s : String) : Option ℚ :=
  let parseUnsigned : List Char → Option ℚ := fun l =>
    match l.span Char.isDigit with
    | (ip, rest) =>
      match rest with
      | [] => if ip = [] then none else some (digitsVal ip)
      | '.' :: fp =>
        if fp.all Char.isDigit ∧ ¬(ip = [] ∧ fp = []) then
          some ((digitsVal ip : ℚ) + (digitsVal fp : ℚ) / ((10 : ℚ) ^ fp.length))
        else none
      | _ => none
  match s.toList with
  | '-' :: rest => (parseUnsigned rest).map (fun q => -q)
  | '+' :: rest => parseUnsigned rest
  | l => parseUnsigned l

/-- A raw CSV row as produced by `pd.read_csv`: a missing cell is NaN,
modelled as `none`; `sideCols` lists the values of the `Side_Effect_1` …
`Side_Effect_9` columns present in the file, in column order.  The
`Strength` field stands for the dataset's `Strenght/\nConc.` column and
`Local_Import` for `Local/Import`. -/
structure RawRow where
  SN : Option String := none
  Trade_Name : Option String := none
  Strength : Option String := none
  Dosage_Form : Option String := none
  Quantity_of_Dosage_Form : Option String := none
  Price : Option String := none
  Generic_Name : Option String := none
  Local_Import : Option String := none
  Category : Option String := none
  Indications_for_Use : Option String := none
  sideCols : List (Option String) := []
  Image_URL : Option String := none
deriving DecidableEq

/-- A row after `MedicationProcessor._clean_data`
(medication_processor.py, lines 52-68): `fillna('')` has turned every
NaN into the empty string, and `pd.to_numeric(..., errors='coerce')` has
added the `Price_Numeric` column. -/
structure CRow where
  SN : String := ""
  Trade_Name : String := ""
  Strength : String := ""
  Dosage_Form : String := ""
  Quantity_of_Dosage_Form : String := ""
  Price : String := ""
  Generic_Name : String := ""
  Local_Import : String := ""
  Category : String := ""
  Indications_for_Use : String := ""
  sideCols : List String := []
  Image_URL : String := ""
  Price_Numeric : Option ℚ := none
deriving DecidableEq

/-- `_clean_data` applied to one row. -/
def clean_row (r : RawRow) : CRow :=
  { SN := r.SN.getD ""
    Trade_Name := r.Trade_Name.getD ""
    Strength := r.Strength.getD ""
    Dosage_Form := r.Dosage_Form.getD ""
    Quantity_of_Dosage_Form := r.Quantity_of_Dosage_Form.getD ""
    Price := r.Price.getD ""
    Generic_Name := r.Generic_Name.getD ""
    Local_Import := r.Local_Import.getD ""
    Category := r.Category.getD ""
    Indications_for_Use := r.Indications_for_Use.getD ""
    sideCols := r.sideCols.map (fun o => o.getD "")
    Image_URL := r.Image_URL.getD ""
    Price_Numeric := pyToNumeric (r.Price.getD "") }

/-- The medication dict built for row `idx` by
`MedicationProcessor._create_medications_dict`
(medication_processor.py, lines 92-119).  The side-effect extraction
keeps, in column order, the values of the `Side_Effect_N` columns that
are truthy (non-empty after `fillna`). -/
def mkMedication (idx : ℕ) (r : CRow) : MedDict :=
  [("id", .s (toString idx)),
   ("SN", .s r.SN),
   ("Trade_Name", .s r.Trade_Name),
   ("Strength", .s r.Strength),
   ("Dosage_Form", .s r.Dosage_Form),
   ("Quantity_of_Dosage_Form", .s r.Quantity_of_Dosage_Form),
   ("Price", .s r.Price),
   ("Generic_Name", .s r.Generic_Name),
   ("Local_Import", .s r.Local_Import),
   ("Category", .s r.Category),
   ("Indications_for_Use", .s r.Indications_for_Use),
   ("Side_Effects", .l (r.sideCols.filter (fun e => decide (e ≠ "")))),
   ("Image_URL", .s r.Image_URL)]

/-- `medications_dict`: one entry per dataframe row, keyed by `str(idx)`
in row order. -/
def create_medications_dict (rows : List CRow) : List (String × MedDict) :=
  rows.enum.map (fun p => (toString p.1, mkMedication p.1 p.2))

/-- `dict.get(str(idx))` on `medications_dict`. -/
def dictGet (d : List (String × MedDict)) (k : String) : Option MedDict :=
  (d.find? (fun p => decide (p.1 = k))).map (·.2)

/-- The Python dict assignment `index[key] = idx` of `_create_indexes`:
update the (unique) existing entry in place, or append a new one. -/
def dinsertNat : List (String × ℕ) → String → ℕ → List (String × ℕ)
  | [], k, v => [(k, v)]
  | p :: ps, k, v => if p.1 = k then (k, v) :: ps else p :: dinsertNat ps k v

/-- The trade-name / generic-name index of
`MedicationProcessor._create_indexes` (medication_processor.py, lines
80-90): iterate the column with `enumerate`, skipping falsy (empty)
names; a name occurring in several rows keeps only the last row's index,
because later dict assignments overwrite earlier ones. -/
def buildNameIndex (names : List String) : List (String × ℕ) :=
  names.enum.foldl
    (fun m p => if p.2 ≠ "" then dinsertNat m (pyLower p.2) p.1 else m) []

/-- The category listing of `_create_indexes` (medication_processor.py,
lines 72-78): `sorted(self.df['Category'].dropna().unique().tolist())`.
`_clean_data` has already replaced every NaN by `''`, so `dropna()`
removes nothing; `unique()` keeps the distinct values (blank included)
and `sorted` orders them. -/
def createCategories (rows : List CRow) : List String :=
  List.insertionSort (fun a b : String => a ≤ b) ((rows.map (·.Category)).dedup)

/-- The state of a `MedicationProcessor` after a successful `load_data`:
the cleaned dataframe, the medication dicts and the derived indexes. -/
structure Processor where
  rows : List CRow
  medications_dict : List (String × MedDict)
  trade_name_index : List (String × ℕ)
  generic_name_index : List (String × ℕ)
  categories : List String

/-- `MedicationProcessor.load_data` (medication_processor.py, lines
23-50) on an already-parsed CSV: `_clean_data`, `_create_indexes`,
`_create_medications_dict`. -/
def load_data (raws : List RawRow) : Processor :=
  let rows := raws.map clean_row
  { rows := rows
    medications_dict := create_medications_dict rows
    trade_name_index := buildNameIndex (rows.map (·.Trade_Name))
    generic_name_index := buildNameIndex (rows.map (·.Generic_Name))
    categories := createCategories rows }

/-- A two-row table whose first row has a blank (NaN) category. -/
def c6_rows : List RawRow :=
  [{ Trade_Name := some "Panadol", Category := none },
   { Trade_Name := some "Lipitor", Category := some "B" }]

/-- claim C6 counterexample: loading a table whose first row has a blank
category keeps the record in the table, but the blank value DOES appear in
the distinct-categories listing: `fillna('')` runs before `dropna()`, so
the empty string survives `dropna().unique()` and is sorted first. -/
theorem blank_category_in_categories :
    "" ∈ (load_data c6_rows).categories ∧
      (load_data c6_rows).medications_dict.length = 2 := by
  constructor
  · show "" ∈ createCategories (c6_rows.map clean_row)
    rw [createCategories, List.mem_insertionSort, List.mem_dedup]
    decide
  · decide

/-- claim C6 (amended): after every successful load the categories listing
is the sorted duplicate-free list of all category values of the loaded
rows — including the blank value, as the empty string, when some row's
category is blank — and every record, blank category or not, is present in
the table. -/
theorem categories_after_load (raws : List RawRow) :
    List.Sorted (fun a b : String => a ≤ b) (load_data raws).categories ∧
      (load_data raws).categories.Nodup ∧
      (∀ s : String,
        s ∈ (load_data raws).categories ↔ s ∈ (raws.map clean_row).map CRow.Category) ∧
      (load_data raws).medications_dict.length = raws.length := by
  refine ⟨List.sorted_insertionSort _ _, ?_, ?_, ?_⟩
  · exact ((List.perm_insertionSort _ _).symm).nodup (List.nodup_dedup _)
  · intro s
    show s ∈ createCategories _ ↔ _
    rw [createCategories, List.mem_insertionSort, List.mem_dedup]
  · show (create_medications_dict _).length = _
    rw [create_medications_dict]
    simp

/-- One step of the two name-scanning loops of
`_identify_medication_names` (question_answering.py, lines 124-136): on a
substring hit of the (lowercased) indexed name in the preprocessed text,
`medications_dict.get(str(idx))` is consulted and the medication appended
when truthy (a non-empty dict). -/
def nameScanStep (p : Processor) (s : String) (acc : List MedDict)
    (e : String × ℕ) : List MedDict :=
  match pyIn e.1 s with
  | false => acc
  | true =>
    match dictGet p.medications_dict (toString e.2) with
    | none => acc
    | some med =>
      match med with
      | [] => acc
      | _ :: _ => acc ++ [med]

/-- The `found_medications` list: the trade-name scan followed by the
generic-name scan. -/
def identifyFound (p : Processor) (s : String) : List MedDict :=
  p.generic_name_index.foldl (nameScanStep p s)
    (p.trade_name_index.foldl (nameScanStep p s) [])

/-- The dict assignment `unique_medications[med['id']] = med`, keyed by
the medication's `id` value. -/
def dinsertF : List (FVal × MedDict) → FVal → MedDict → List (FVal × MedDict)
  | [], k, v => [(k, v)]
  | p :: ps, k, v => if p.1 = k then (k, v) :: ps else p :: dinsertF ps k v

/-- The de-duplication loop of `_identify_medication_names`
(question_answering.py, lines 138-143): `med['id']` raises on a dict
without an `id` key. -/
def dedupById : List (FVal × MedDict) → List MedDict → Option (List (FVal × MedDict))
  | acc, [] => some acc
  | acc, med :: rest =>
    match dget med "id" with
    | some k => dedupById (dinsertF acc k med) rest
    | none => none

/-- `QuestionAnsweringEngine._identify_medication_names`
(question_answering.py, lines 111-143). -/
def identify_medication_names (p : Processor) (text : String) :
    Option (List MedDict) :=
  (dedupById [] (identifyFound p (preprocess_text text))).map (fun u => u.map Prod.snd)

theorem mem_nameScanStep (p : Processor) (s : String) (acc : List MedDict)
    (e : String × ℕ) {x : MedDict} (hx : x ∈ acc) :
    x ∈ nameScanStep p s acc e := by
  unfold nameScanStep
  cases pyIn e.1 s with
  | false => exact hx
  | true =>
    cases dictGet p.medications_dict (toString e.2) with
    | none => exact hx
    | some med =>
      cases med with
      | nil => exact hx
      | cons f fs => exact List.mem_append_left _ hx

theorem mem_foldl_nameScanStep_acc (p : Processor) (s : String) :
    ∀ (entries : List (String × ℕ)) (acc : List MedDict) (x : MedDict),
      x ∈ acc → x ∈ entries.foldl (nameScanStep p s) acc := by
  intro entries
  induction entries with
  | nil => intro acc x hx; exact hx
  | cons e rest ih =>
    intro acc x hx
    rw [List.foldl_cons]
    exact ih _ x (mem_nameScanStep p s acc e hx)

theorem mem_nameScanStep_elim (p : Processor) (s : String) (acc : List MedDict)
    (e : String × ℕ) {x : MedDict} (hx : x ∈ nameScanStep p s acc e) :
    x ∈ acc ∨ ∃ key, dictGet p.medications_dict key = some x := by
  revert hx
  unfold nameScanStep
  cases pyIn e.1 s with
  | false => exact fun hx => Or.inl hx
  | true =>
    cases hd : dictGet p.medications_dict (toString e.2) with
    | none => exact fun hx => Or.inl hx
    | some med =>
      cases med with
      | nil => exact fun hx => Or.inl hx
      | cons f fs =>
        intro hx
        rcases List.mem_append.mp hx with h | h
        · exact Or.inl h
        · rw [List.mem_singleton.mp h]
          exact Or.inr ⟨toString e.2, hd⟩

theorem mem_foldl_nameScanStep_elim (p : Processor) (s : String) :
    ∀ (entries : List (String × ℕ)) (acc : List MedDict) (x : MedDict),
      x ∈ entries.foldl (nameScanStep p s) acc →
      x ∈ acc ∨ ∃ key, dictGet p.medications_dict key = some x := by
  intro entries
  induction entries with
  | nil => intro acc x hx; exact Or.inl hx
  | cons e rest ih =>
    intro acc x hx
    rw [List.foldl_cons] at hx
    rcases ih _ x hx with h | h
    · exact mem_nameScanStep_elim p s acc e h
    · exact Or.inr h

theorem mem_foldl_nameScanStep_hit (p : Processor) (s : String) {T : String} {idx : ℕ}
    {med : MedDict} (hsub : pyIn T s = true)
    (hmed : dictGet p.medications_dict (toString idx) = some med)
    (hne : med ≠ []) :
    ∀ (entries : List (String × ℕ)) (acc : List MedDict),
      (T, idx) ∈ entries → med ∈ entries.foldl (nameScanStep p s) acc := by
  intro entries
  induction entries with
  | nil => intro acc h; cases h
  | cons e rest ih =>
    intro acc h
    rw [List.foldl_cons]
    rcases List.mem_cons.mp h with h | h
    · refine mem_foldl_nameScanStep_acc p s rest _ med ?_
      rw [← h]
      unfold nameScanStep
      simp only [hsub, hmed]
      cases hm : med with
      | nil => exact absurd hm hne
      | cons f fs => simp
    · exact ih _ h

theorem dinsertF_mem_insert (k : FVal) (v : MedDict) :
    ∀ acc : List (FVal × MedDict), (k, v) ∈ dinsertF acc k v := by
  intro acc
  induction acc with
  | nil => exact List.mem_singleton_self _
  | cons p ps ih =>
    by_cases hp : p.1 = k
    · simp only [dinsertF, if_pos hp]
      exact List.mem_cons_self _ _
    · simp only [dinsertF, if_neg hp]
      exact List.mem_cons_of_mem _ ih

theorem dinsertF_preserve_ne {k k2 : FVal} (hne : k2 ≠ k) {v : MedDict} (v2 : MedDict) :
    ∀ acc : List (FVal × MedDict), (k, v) ∈ acc → (k, v) ∈ dinsertF acc k2 v2 := by
  intro acc
  induction acc with
  | nil => intro h; cases h
  | cons p ps ih =>
    intro h
    by_cases hp : p.1 = k2
    · simp only [dinsertF, if_pos hp]
      rcases List.mem_cons.mp h with h | h
      · exfalso
        apply hne
        rw [← hp, ← h]
      · exact List.mem_cons_of_mem _ h
    · simp only [dinsertF, if_neg hp]
      rcases List.mem_cons.mp h with h | h
      · rw [h]; exact List.mem_cons_self _ _
      · exact List.mem_cons_of_mem _ (ih h)

theorem dinsertF_keys_sub {k : FVal} {v : MedDict} :
    ∀ (acc : List (FVal × MedDict)) (k' : FVal),
      k' ∈ (dinsertF acc k v).map Prod.fst → k' ∈ acc.map Prod.fst ∨ k' = k := by
  intro acc
  induction acc with
  | nil =>
    intro k' h
    simp only [dinsertF, List.map_cons, List.map_nil] at h
    exact Or.inr (List.mem_singleton.mp h)
  | cons p ps ih =>
    intro k' h
    by_cases hp : p.1 = k
    · simp only [dinsertF, if_pos hp, List.map_cons] at h
      rcases List.mem_cons.mp h with h | h
      · exact Or.inr h
      · exact Or.inl (by simp only [List.map_cons]; exact List.mem_cons_of_mem _ h)
    · simp only [dinsertF, if_neg hp, List.map_cons] at h
      rcases List.mem_cons.mp h with h | h
      · exact Or.inl (by simp only [List.map_cons]; rw [h]; exact List.mem_cons_self _ _)
      · rcases ih k' h with h' | h'
        · exact Or.inl (by simp only [List.map_cons]; exact List.mem_cons_of_mem _ h')
        · exact Or.inr h'

theorem dinsertF_keys_nodup {k : FVal} {v : MedDict} :
    ∀ acc : List (FVal × MedDict),
      (acc.map Prod.fst).Nodup → ((dinsertF acc k v).map Prod.fst).Nodup := by
  intro acc
  induction acc with
  | nil => intro _; simp [dinsertF]
  | cons p ps ih =>
    intro hnd
    rw [List.map_cons, List.nodup_cons] at hnd
    by_cases hp : p.1 = k
    · simp only [dinsertF, if_pos hp, List.map_cons, List.nodup_cons]
      exact ⟨by rw [← hp]; exact hnd.1, hnd.2⟩
    · simp only [dinsertF, if_neg hp, List.map_cons, List.nodup_cons]
      refine ⟨?_, ih hnd.2⟩
      intro hmem
      rcases dinsertF_keys_sub ps p.1 hmem with h | h
      · exact hnd.1 h
      · exact hp h

/-- The de-duplication loop succeeds and retains the distinguished
medication `med` (key `kid`) once every remaining medication's id either
differs from `kid` or belongs to `med` itself. -/
theorem dedupById_mem {kid : FVal} {med : MedDict} :
    ∀ (rest : List MedDict) (acc : List (FVal × MedDict)),
      (∀ m ∈ rest, ∃ k', dget m "id" = some k' ∧ (k' = kid → m = med)) →
      (acc.map Prod.fst).Nodup →
      ((kid, med) ∈ acc ∨ (med ∈ rest ∧ dget med "id" = some kid)) →
      ∃ out, dedupById acc rest = some out ∧ (kid, med) ∈ out := by
  intro rest
  induction rest with
  | nil =>
    intro acc _ _ hin
    rcases hin with h | h
    · exact ⟨acc, rfl, h⟩
    · cases h.1
  | cons m rest' ih =>
    intro acc hids hnd hin
    obtain ⟨k', hk', himp⟩ := hids m (List.mem_cons_self _ _)
    simp only [dedupById, hk']
    refine ih (dinsertF acc k' m)
      (fun x hx => hids x (List.mem_cons_of_mem _ hx))
      (dinsertF_keys_nodup acc hnd) ?_
    rcases hin with h | h
    · by_cases hkk : k' = kid
      · subst hkk
        rw [himp rfl]
        exact Or.inl (dinsertF_mem_insert _ _ _)
      · exact Or.inl (dinsertF_preserve_ne hkk m acc h)
    · rcases List.mem_cons.mp h.1 with hm | hm
      · subst hm
        have : k' = kid := by
          rw [hk'] at h
          exact Option.some_inj.mp h.2
        subst this
        exact Or.inl (dinsertF_mem_insert _ _ _)
      · exact Or.inr ⟨hm, h.2⟩

/-- Well-formedness of a loaded table, tying every `medications_dict`
entry to its key: a value's `id` field is the string form of its key. -/
def IdWF (p : Processor) : Prop :=
  ∀ k med, (k, med) ∈ p.medications_dict → dget med "id" = some (.s k)

theorem dictGet_mem {d : List (String × MedDict)} {k : String} {m : MedDict}
    (h : dictGet d k = some m) : (k, m) ∈ d := by
  unfold dictGet at h
  cases hf : d.find? (fun p => decide (p.1 = k)) with
  | none => rw [hf] at h; cases h
  | some e =>
    rw [hf] at h
    have he : e ∈ d := List.mem_of_find?_eq_some hf
    have hkb := List.find?_some hf
    have hk : e.1 = k := by simpa using hkb
    have hm : e.2 = m := Option.some_inj.mp h
    rw [← hk, ← hm]
    exact he

theorem dget_ne_nil {m : MedDict} {k : String} {v : FVal} (h : dget m k = some v) :
    m ≠ [] := by
  intro hm
  rw [hm] at h
  cases h

/-- id keys of the medications found by the scan are consistent: every
found medication is a `medications_dict` value, so under `IdWF` its id
determines its dict key and hence the medication itself. -/
theorem found_id_spec {p : Processor} (hwf : IdWF p) {s : String} {idx : ℕ}
    {med : MedDict} (hmed : dictGet p.medications_dict (toString idx) = some med) :
    ∀ m ∈ identifyFound p s, ∃ k', dget m "id" = some k' ∧
      (k' = FVal.s (toString idx) → m = med) := by
  intro m hm
  rcases mem_foldl_nameScanStep_elim p s _ _ m hm with h | h
  · rcases mem_foldl_nameScanStep_elim p s _ _ m h with h' | h'
    · cases h'
    · obtain ⟨key, hkey⟩ := h'
      refine ⟨.s key, hwf key m (dictGet_mem hkey), ?_⟩
      intro hk
      have : key = toString idx := by
        injection hk
      rw [this] at hkey
      rw [hkey] at hmed
      exact Option.some_inj.mp hmed
  · obtain ⟨key, hkey⟩ := h
    refine ⟨.s key, hwf key m (dictGet_mem hkey), ?_⟩
    intro hk
    have : key = toString idx := by
      injection hk
    rw [this] at hkey
    rw [hkey] at hmed
    exact Option.some_inj.mp hmed

/-- claim C1 (confirmed): for every trade name `T` in the loaded table's
trade-name index and every question whose normalized form contains `T` as
a plain substring (no word boundaries are involved),
`_identify_medication_names` returns a list containing the record for `T`
(the `medications_dict` entry the index points to). -/
theorem trade_name_extraction (p : Processor) (text T : String) (idx : ℕ)
    (med : MedDict) (hwf : IdWF p)
    (hidx : (T, idx) ∈ p.trade_name_index)
    (hsub : pyIn T (preprocess_text text) = true)
    (hmed : dictGet p.medications_dict (toString idx) = some med) :
    ∃ l, identify_medication_names p text = some l ∧ med ∈ l := by
  have hkid : dget med "id" = some (.s (toString idx)) :=
    hwf _ med (dictGet_mem hmed)
  have hne : med ≠ [] := dget_ne_nil hkid
  have hfound : med ∈ identifyFound p (preprocess_text text) :=
    mem_foldl_nameScanStep_acc p _ _ _ med
      (mem_foldl_nameScanStep_hit p _ hsub hmed hne _ [] hidx)
  obtain ⟨out, hout, hmem⟩ :=
    dedupById_mem (identifyFound p (preprocess_text text)) []
      (found_id_spec hwf hmed) (by simp) (Or.inr ⟨hfound, hkid⟩)
  refine ⟨out.map Prod.snd, ?_, ?_⟩
  · unfold identify_medication_names
    rw [hout]
    rfl
  · exact List.mem_map_of_mem _ hmem

/-- claim C3 (amended): for every generic name `G` in the generic-name
index occurring as a substring of the normalized question, the record the
index maps `G` to — the last loaded record with that generic name, since
later index assignments overwrite earlier ones — is included in the
extraction result; records sharing `G` other than that one are not
reachable through the generic-name scan. -/
theorem generic_name_extraction (p : Processor) (text G : String) (idx : ℕ)
    (med : MedDict) (hwf : IdWF p)
    (hidx : (G, idx) ∈ p.generic_name_index)
    (hsub : pyIn G (preprocess_text text) = true)
    (hmed : dictGet p.medications_dict (toString idx) = some med) :
    ∃ l, identify_medication_names p text = some l ∧ med ∈ l := by
  have hkid : dget med "id" = some (.s (toString idx)) :=
    hwf _ med (dictGet_mem hmed)
  have hne : med ≠ [] := dget_ne_nil hkid
  have hfound : med ∈ identifyFound p (preprocess_text text) :=
    mem_foldl_nameScanStep_hit p _ hsub hmed hne _ _ hidx
  obtain ⟨out, hout, hmem⟩ :=
    dedupById_mem (identifyFound p (preprocess_text text)) []
      (found_id_spec hwf hmed) (by simp) (Or.inr ⟨hfound, hkid⟩)
  refine ⟨out.map Prod.snd, ?_, ?_⟩
  · unfold identify_medication_names
    rw [hout]
    rfl
  · exact List.mem_map_of_mem _ hmem

/-- Every loaded table satisfies `IdWF`: `_create_medications_dict` keys
each medication by `str(idx)` and stores the same string in its `id`
field. -/
theorem load_idWF (raws : List RawRow) : IdWF (load_data raws) := by
  intro k med hmem
  obtain ⟨pr, _, hpr⟩ := List.mem_map.mp hmem
  cases hpr
  rfl

/-- A one-row table used to instantiate the extraction theorems. -/
def w1_row : RawRow :=
  { Trade_Name := some "Panadol", Generic_Name := some "Paracetamol",
    Category := some "Analgesic", Price := some "15",
    Indications_for_Use := some "For relief of pain and fever" }

def w1_raws : List RawRow := [w1_row]

/-- witness for `trade_name_extraction`: the table containing Panadol and
the question "What is Panadol used for?". -/
theorem trade_name_extraction_witness :
    ∃ l, identify_medication_names (load_data w1_raws) "What is Panadol used for?"
        = some l ∧ mkMedication 0 (clean_row w1_row) ∈ l :=
  trade_name_extraction (load_data w1_raws) "What is Panadol used for?" "panadol" 0
    (mkMedication 0 (clean_row w1_row)) (load_idWF w1_raws)
    (by decide) (by decide) (by decide)

/-- witness for `generic_name_extraction`: the same table queried through
the generic name "paracetamol". -/
theorem generic_name_extraction_witness :
    ∃ l, identify_medication_names (load_data w1_raws) "tell me about paracetamol"
        = some l ∧ mkMedication 0 (clean_row w1_row) ∈ l :=
  generic_name_extraction (load_data w1_raws) "tell me about paracetamol" "paracetamol" 0
    (mkMedication 0 (clean_row w1_row)) (load_idWF w1_raws)
    (by decide) (by decide) (by decide)

def c3_row0 : RawRow := { Trade_Name := some "Aaa", Generic_Name := some "Paracetamol" }

def c3_row1 : RawRow := { Trade_Name := some "Bbb", Generic_Name := some "Paracetamol" }

def c3_rows : List RawRow := [c3_row0, c3_row1]

/-- claim C3 counterexample: two loaded records share the generic name
`paracetamol`, yet on the question "paracetamol" the extraction result
contains only the record the index maps the name to (the last one, row 1);
row 0, which shares the generic name, is not included. -/
theorem generic_name_shared_not_all_included :
    identify_medication_names (load_data c3_rows) "paracetamol" =
        some [mkMedication 1 (clean_row c3_row1)] ∧
      mkMedication 0 (clean_row c3_row0) ∉ [mkMedication 1 (clean_row c3_row1)] :=
  ⟨by decide, by decide⟩

/-- The search-term test of `get_medications` (medication_processor.py,
lines 172-177), with Python's short-circuit `or`: a `KeyError` in a later
disjunct is not reached when an earlier disjunct already matched.  `s` is
the already-lowercased search term. -/
def searchHit (s : String) (med : MedDict) : Option Bool := do
  let tn ← dgetS med "Trade_Name"
  if pyIn s (pyLower tn) then pure true
  else do
    let gn ← dgetS med "Generic_Name"
    if pyIn s (pyLower gn) then pure true
    else do
      let ct ← dgetS med "Category"
      if pyIn s (pyLower ct) then pure true
      else do
        let ind ← dgetS med "Indications_for_Use"
        pure (pyIn s (pyLower ind))

/-- The filtering loop `for med in results: if <test>: append`, in the
`Option` monad. -/
def optFilter {α : Type} (f : α → Option Bool) : List α → Option (List α)
  | [] => some []
  | x :: xs => do
    let b ← f x
    let rest ← optFilter f xs
    pure (if b then x :: rest else rest)

/-- The result sequence of `get_medications` before the limit is applied,
on the filtered path (some filter is set): the category filter restricts
the dataframe rows (keeping dataframe order) and maps back through
`medications_dict`; the search filter then keeps substring matches. -/
def gm_results (p : Processor) (search category : String) : Option (List MedDict) :=
  let results :=
    if category ≠ "" then
      (p.rows.enum.filter (fun e => decide (e.2.Category = category))).filterMap
        (fun e => dictGet p.medications_dict (toString e.1))
    else p.medications_dict.map Prod.snd
  if search ≠ "" then optFilter (searchHit (pyLower search)) results
  else some results

/-- `MedicationProcessor.get_medications` (medication_processor.py, lines
133-185).  `limit` is `Optional[int]`; Python's `if limit:` is false both
for `None` and for `0`. -/
def get_medications (p : Processor) (search category : String)
    (limit : Option ℕ) : Option (List MedDict) :=
  if search = "" ∧ category = "" then
    let results := p.medications_dict.map Prod.snd
    match limit with
    | some l => if l ≠ 0 then some (results.take l) else some results
    | none => some results
  else
    match gm_results p search category with
    | none => none
    | some res =>
      match limit with
      | some l => if l ≠ 0 ∧ res.length > l then some (res.take l) else some res
      | none => some res

/-- claim C10 (confirmed): for every table and every term/category,
`get_medications` with `limit = 0` returns the same result as
`limit = None`: both are falsy for the code's `if limit:` tests, so a zero
limit means "no limit", not "empty result". -/
theorem get_medications_zero_limit (p : Processor) (search category : String) :
    get_medications p search category (some 0) =
      get_medications p search category none := by
  unfold get_medications
  by_cases h : search = "" ∧ category = ""
  · rw [if_pos h, if_pos h]
    simp
  · rw [if_neg h, if_neg h]
    cases gm_results p search category with
    | none => rfl
    | some res => simp

/-- claim C7 (amended): `get_medications` preserves the table's original
record order — with empty term, empty category and no limit it returns all
records in row order — and for every nonzero limit smaller than the
(filtered or unfiltered) result count it returns exactly the first
`limit` records of that order.  (`limit = 0` is the exception the code
treats as "no limit".) -/
theorem get_medications_order_and_limit :
    (∀ raws : List RawRow,
      get_medications (load_data raws) "" "" none =
        some ((raws.map clean_row).enum.map (fun e => mkMedication e.1 e.2))) ∧
    (∀ (p : Processor) (search category : String) (l : ℕ) (res : List MedDict),
      get_medications p search category none = some res →
      l ≠ 0 → l < res.length →
      get_medications p search category (some l) = some (res.take l)) := by
  constructor
  · intro raws
    show some ((create_medications_dict (raws.map clean_row)).map Prod.snd) = _
    unfold create_medications_dict
    rw [List.map_map]
    rfl
  · intro p search category l res hres hl hlen
    unfold get_medications at hres ⊢
    by_cases h : search = "" ∧ category = ""
    · rw [if_pos h] at hres ⊢
      have heq : p.medications_dict.map Prod.snd = res := Option.some_inj.mp hres
      show (if l ≠ 0 then some ((p.medications_dict.map Prod.snd).take l)
            else some (p.medications_dict.map Prod.snd)) = some (res.take l)
      rw [if_pos hl, heq]
    · rw [if_neg h] at hres ⊢
      cases hr : gm_results p search category with
      | none => rw [hr] at hres; cases hres
      | some res' =>
        rw [hr] at hres
        have heq : res' = res := Option.some_inj.mp hres
        subst heq
        show (if l ≠ 0 ∧ res'.length > l then some (res'.take l) else some res') =
          some (res'.take l)
        rw [if_pos ⟨hl, hlen⟩]

/-- witness for `get_medications_order_and_limit`: the two-row table of
`c3_rows` truncated to its first record by `limit = 1`. -/
theorem get_medications_order_and_limit_witness :
    get_medications (load_data c3_rows) "" "" (some 1) =
      some (List.take 1
        [mkMedication 0 (clean_row c3_row0), mkMedication 1 (clean_row c3_row1)]) :=
  get_medications_order_and_limit.2 (load_data c3_rows) "" "" 1
    [mkMedication 0 (clean_row c3_row0), mkMedication 1 (clean_row c3_row1)]
    (by decide) (by decide) (by decide)

/-- claim C7 counterexample: on a two-record table, `limit = 0` — an
integer limit smaller than the result count 2 — does not return the first
0 records (the empty sequence): the code returns the whole table. -/
theorem get_medications_limit_zero_whole_table :
    get_medications (load_data c3_rows) "" "" (some 0) ≠ some [] ∧
      0 < ((load_data c3_rows).medications_dict.map Prod.snd).length :=
  ⟨by decide, by decide⟩

/-- The criteria dict of `advanced_search`: an absent key is `none`. -/
structure Criteria where
  trade_name : Option String := none
  generic_name : Option String := none
  category : Option String := none
  min_price : Option ℚ := none
  max_price : Option ℚ := none
  indication : Option String := none

/-- pandas `Series.str.contains(pat, case=False, na=False)` on the plain
(regex-metacharacter-free) patterns used here: case-insensitive substring
test. -/
def strContainsCI (pat s : String) : Bool :=
  pyIn (pyLower pat) (pyLower s)

/-- `MedicationProcessor.advanced_search` (medication_processor.py, lines
223-263): sequential conjunctive dataframe filters.  A string criterion
applies when present and truthy (non-empty); a price bound applies when
present (`is not None`); comparisons against a NaN `Price_Numeric` are
false, so a row whose price did not parse never passes a price filter.
The surviving rows are mapped back to their `medications_dict` entries in
dataframe order. -/
def advanced_search (p : Processor) (c : Criteria) : List MedDict :=
  let q0 := p.rows.enum
  let q1 := match c.trade_name with
    | some v => if v ≠ "" then q0.filter (fun (e : ℕ × CRow) => strContainsCI v e.2.Trade_Name) else q0
    | none => q0
  let q2 := match c.generic_name with
    | some v => if v ≠ "" then q1.filter (fun (e : ℕ × CRow) => strContainsCI v e.2.Generic_Name) else q1
    | none => q1
  let q3 := match c.category with
    | some v => if v ≠ "" then q2.filter (fun (e : ℕ × CRow) => decide (e.2.Category = v)) else q2
    | none => q2
  let q4 := match c.min_price with
    | some v => q3.filter (fun (e : ℕ × CRow) =>
        match e.2.Price_Numeric with
        | some pr => decide (v ≤ pr)
        | none => false)
    | none => q3
  let q5 := match c.max_price with
    | some v => q4.filter (fun (e : ℕ × CRow) =>
        match e.2.Price_Numeric with
        | some pr => decide (pr ≤ v)
        | none => false)
    | none => q4
  let q6 := match c.indication with
    | some v => if v ≠ "" then q5.filter (fun (e : ℕ × CRow) => strContainsCI v e.2.Indications_for_Use) else q5
    | none => q5
  q6.filterMap (fun (e : ℕ × CRow) => dictGet p.medications_dict (toString e.1))

/-- claim C8 (confirmed): `advanced_search` with the criteria
`{min_price: 10, max_price: 20}` returns exactly the records of the rows
whose parsed numeric price `pr` satisfies `10 ≤ pr ≤ 20` (inclusive
bounds); a record whose price does not parse (NaN `Price_Numeric`) is
excluded, and the omitted criteria are not applied. -/
theorem advanced_search_price_range (p : Processor) :
    advanced_search p { min_price := some 10, max_price := some 20 } =
      (p.rows.enum.filter (fun e =>
        match e.2.Price_Numeric with
        | some pr => decide (10 ≤ pr ∧ pr ≤ 20)
        | none => false)).filterMap
        (fun e => dictGet p.medications_dict (toString e.1)) := by
  show (((p.rows.enum.filter (fun e =>
      match e.2.Price_Numeric with
      | some pr => decide ((10 : ℚ) ≤ pr)
      | none => false)).filter (fun e =>
      match e.2.Price_Numeric with
      | some pr => decide (pr ≤ (20 : ℚ))
      | none => false)).filterMap
      (fun e => dictGet p.medications_dict (toString e.1))) = _
  rw [List.filter_filter]
  congr 1
  apply List.filter_congr
  intro e _
  cases e.2.Price_Numeric with
  | none => rfl
  | some pr =>
    show (decide (pr ≤ 20) && decide (10 ≤ pr)) = decide (10 ≤ pr ∧ pr ≤ 20)
    rw [Bool.and_comm]
    simp

/-- Python truthiness of a field value. -/
def pyTruthy : FVal → Bool
  | .s v => v ≠ ""
  | .l vs => vs ≠ []

/-- `len(x)` of a field value. -/
def pyLen : FVal → ℕ
  | .s v => v.length
  | .l vs => vs.length

/-- Iterating a field value in a `for` loop: a list yields its elements, a
string its characters (the string case is never reached on loaded tables,
whose `Side_Effects` is always a list). -/
def pyIterStrs : FVal → List String
  | .l vs => vs
  | .s v => v.toList.map (fun c => String.mk [c])

/-- f-string rendering of a field value; the list case shows Python's
repr-style form (never reached: only string fields are interpolated). -/
def fvalStr : FVal → String
  | .s v => v
  | .l vs => "[" ++ String.intercalate ", " (vs.map (fun v => "'" ++ v ++ "'")) ++ "]"

/-- `_generate_side_effects_response` (question_answering.py, lines
225-236).  The `Trade_Name` access of whichever f-string runs is hoisted
before the branch; both branches perform it, so the `Option` behaviour is
unchanged. -/
def generate_side_effects_response (med : MedDict) : Option String := do
  let se := (dget med "Side_Effects").getD (.l [])
  let tn ← dget med "Trade_Name"
  if pyTruthy se then
    pure ("**Side Effects of " ++ fvalStr tn ++ ":**\n\n"
      ++ String.intercalate "\n" ((pyIterStrs se).map (fun e => "• " ++ e))
      ++ "\n\nIf you experience severe side effects, contact your healthcare provider immediately.")
  else
    pure ("**Side Effects of " ++ fvalStr tn
      ++ ":**\n\nNo specific side effects are listed in our database for "
      ++ fvalStr tn ++ ". Please consult your doctor or pharmacist for more information.")

/-- `_generate_price_response` (question_answering.py, lines 238-240). -/
def generate_price_response (med : MedDict) : Option String := do
  let tn ← dget med "Trade_Name"
  let pr ← dget med "Price"
  pure ("**" ++ fvalStr tn ++ "** is priced at " ++ fvalStr pr
    ++ ".\n\nPlease note that prices may vary by location and pharmacy.")

/-- `_generate_usage_response` (question_answering.py, lines 242-249). -/
def generate_usage_response (med : MedDict) : Option String := do
  let tn ← dget med "Trade_Name"
  let gn ← dget med "Generic_Name"
  let ind ← dget med "Indications_for_Use"
  let df ← dget med "Dosage_Form"
  let st ← dget med "Strength"
  let base := "**" ++ fvalStr tn ++ "** (" ++ fvalStr gn ++ ") is used for:\n\n"
    ++ fvalStr ind
  if pyTruthy df && pyTruthy st then
    pure (base ++ "\n\nIt comes as " ++ fvalStr df ++ " with strength of "
      ++ fvalStr st ++ ".")
  else
    pure base

/-- `_generate_general_info_response` (question_answering.py, lines
251-271). -/
def generate_general_info_response (med : MedDict) : Option String := do
  let tn ← dget med "Trade_Name"
  let gn ← dget med "Generic_Name"
  let ct ← dget med "Category"
  let ind ← dget med "Indications_for_Use"
  let df ← dget med "Dosage_Form"
  let st ← dget med "Strength"
  let qt ← dget med "Quantity_of_Dosage_Form"
  let pr ← dget med "Price"
  let li ← dget med "Local_Import"
  let se := (dget med "Side_Effects").getD (.l [])
  let base := "**" ++ fvalStr tn ++ "** (" ++ fvalStr gn ++ ")\n\n"
    ++ "**Category:** " ++ fvalStr ct ++ "\n\n"
    ++ "**Used for:** " ++ fvalStr ind ++ "\n\n"
    ++ "**Dosage Form:** " ++ fvalStr df ++ "\n"
    ++ "**Strength:** " ++ fvalStr st ++ "\n"
    ++ "**Quantity:** " ++ fvalStr qt ++ "\n"
    ++ "**Price:** " ++ fvalStr pr ++ "\n"
    ++ "**Origin:** " ++ fvalStr li ++ "\n\n"
  if pyTruthy se then
    let selist := String.join (((pyIterStrs se).take 5).map (fun e => "• " ++ e ++ "\n"))
    let moreTail :=
      if pyLen se > 5 then "\nAnd " ++ toString (pyLen se - 5) ++ " more side effects."
      else ""
    pure (base ++ "**Common Side Effects:**\n" ++ selist ++ moreTail)
  else
    pure base

/-- The per-record test of `_generate_category_response`
(question_answering.py, lines 278-281), with Python's short-circuit
`or`. -/
def categoryMatches (condition : String) (med : MedDict) : Option Bool := do
  let ct ← dgetS med "Category"
  if pyIn (pyLower condition) (pyLower ct) then pure true
  else do
    let ind ← dgetS med "Indications_for_Use"
    pure (pyIn (pyLower condition) (pyLower ind))

/-- One rendered entry of the category-response list
(question_answering.py, lines 288-291). -/
def renderCatMed (med : MedDict) : Option String := do
  let tn ← dget med "Trade_Name"
  let gn ← dget med "Generic_Name"
  let ind ← dget med "Indications_for_Use"
  let pr ← dget med "Price"
  pure ("**" ++ fvalStr tn ++ "** (" ++ fvalStr gn ++ ")\n"
    ++ "• " ++ fvalStr ind ++ "\n"
    ++ "• Price: " ++ fvalStr pr ++ "\n\n")

/-- The string concatenation loop `for ...: response += f"..."`, in the
`Option` monad. -/
def optConcatMap {α : Type} (f : α → Option String) : List α → Option String
  | [] => some ""
  | x :: xs => do
    let s ← f x
    let rest ← optConcatMap f xs
    pure (s ++ rest)

/-- `_generate_category_response` (question_answering.py, lines
273-296). -/
def generate_category_response (p : Processor) (condition : String) : Option String := do
  let matching ← optFilter (categoryMatches condition) (p.medications_dict.map Prod.snd)
  if matching = [] then
    pure ("I couldn't find any medications specifically for '" ++ condition
      ++ "' in our database. Please try a different search term or consult with your healthcare provider.")
  else do
    let body ← optConcatMap renderCatMed (matching.take 5)
    let moreTail :=
      if matching.length > 5 then
        "And " ++ toString (matching.length - 5)
          ++ " more. You can ask about any specific medication for more details."
      else ""
    pure ("Here are medications that might be used for " ++ condition ++ ":\n\n"
      ++ body ++ moreTail)

/-- `_generate_storage_response` (question_answering.py, lines 298-300). -/
def storage_response : String :=
  "Here are some general guidelines for storing medications properly:\n\n1. Keep in a cool, dry place (avoid bathroom medicine cabinets which can be humid)\n2. Store at room temperature (15-25°C or 59-77°F) unless specified otherwise\n3. Keep away from direct sunlight\n4. Store in original containers with labels intact\n5. Keep medications out of reach of children and pets\n6. Some medications require refrigeration - check the label\n7. Don't use medications past their expiration date\n8. Don't store different medications in the same container\n\nAlways check the specific storage instructions on your medication's packaging or ask your pharmacist for guidance."

/-- `_generate_generic_vs_brand_response` (question_answering.py, lines
302-304). -/
def generic_vs_brand_response : String :=
  "Generic vs. Brand-Name Medications:\n\n**Brand-Name Medications:**\n• Developed and patented by pharmaceutical companies\n• Usually more expensive\n• Same active ingredients as their generic counterparts\n• Undergo extensive testing before FDA approval\n\n**Generic Medications:**\n• Contain the same active ingredients as brand-name versions\n• FDA-approved and meet the same quality standards\n• Usually 80-85% less expensive\n• May differ in inactive ingredients (colors, fillers, etc.)\n• Become available after the brand-name patent expires\n\nBoth types are equally effective for most people. The main difference is cost. However, some patients with specific sensitivities may respond differently to inactive ingredients in generic versions."

/-- `_generate_default_response` (question_answering.py, lines 306-308). -/
def default_response : String :=
  "Thank you for your question. Based on our medication database, I don't have specific information about that query.\n\nYou can ask about specific medications by name, their side effects, prices, or uses. You can also ask about medications for specific conditions.\n\nFor example, try asking:\n• \"What is Panadol used for?\"\n• \"What are the side effects of Augmentin?\"\n• \"How much does Lipitor cost?\"\n• \"What medications are available for allergies?\"\n\nFor more specific medical advice tailored to your situation, I recommend consulting with your healthcare provider or pharmacist."

/-- `QuestionAnsweringEngine.answer_question` (question_answering.py,
lines 310-353), with its call to `_analyze_question` (lines 206-223): the
medication extraction runs first (its exceptions propagate), intent and
condition extraction are pure; the `keywords` component of the analysis
is a pure computation that response generation never consumes. -/
def answer_question (p : Processor) (question : String) : Option String := do
  let meds ← identify_medication_names p question
  let intent := identify_intent question
  let condition := identify_category_query question
  match meds with
  | medication :: _ =>
    if intent = "side_effects" then generate_side_effects_response medication
    else if intent = "price" then generate_price_response medication
    else if intent = "usage" then generate_usage_response medication
    else generate_general_info_response medication
  | [] =>
    match condition with
    | some c => generate_category_response p c
    | none =>
      if pyIn "store" (pyLower question)
          && (pyIn "medication" (pyLower question) || pyIn "medicine" (pyLower question)) then
        pure storage_response
      else if pyIn "generic" (pyLower question) && pyIn "brand" (pyLower question) then
        pure generic_vs_brand_response
      else
        pure default_response

theorem dget_mk_id (i : ℕ) (r : CRow) :
    dget (mkMedication i r) "id" = some (.s (toString i)) := rfl

theorem dget_mk_Trade_Name (i : ℕ) (r : CRow) :
    dget (mkMedication i r) "Trade_Name" = some (.s r.Trade_Name) := rfl

theorem dget_mk_Strength (i : ℕ) (r : CRow) :
    dget (mkMedication i r) "Strength" = some (.s r.Strength) := rfl

theorem dget_mk_Dosage_Form (i : ℕ) (r : CRow) :
    dget (mkMedication i r) "Dosage_Form" = some (.s r.Dosage_Form) := rfl

theorem dget_mk_Quantity (i : ℕ) (r : CRow) :
    dget (mkMedication i r) "Quantity_of_Dosage_Form" =
      some (.s r.Quantity_of_Dosage_Form) := rfl

theorem dget_mk_Price (i : ℕ) (r : CRow) :
    dget (mkMedication i r) "Price" = some (.s r.Price) := rfl

theorem dget_mk_Generic_Name (i : ℕ) (r : CRow) :
    dget (mkMedication i r) "Generic_Name" = some (.s r.Generic_Name) := rfl

theorem dget_mk_Local_Import (i : ℕ) (r : CRow) :
    dget (mkMedication i r) "Local_Import" = some (.s r.Local_Import) := rfl

theorem dget_mk_Category (i : ℕ) (r : CRow) :
    dget (mkMedication i r) "Category" = some (.s r.Category) := rfl

theorem dget_mk_Indications (i : ℕ) (r : CRow) :
    dget (mkMedication i r) "Indications_for_Use" =
      some (.s r.Indications_for_Use) := rfl

theorem dget_mk_Side_Effects (i : ℕ) (r : CRow) :
    dget (mkMedication i r) "Side_Effects" =
      some (.l (r.sideCols.filter (fun e => decide (e ≠ "")))) := rfl

theorem dgetS_mk_Category (i : ℕ) (r : CRow) :
    dgetS (mkMedication i r) "Category" = some r.Category := rfl

theorem dgetS_mk_Indications (i : ℕ) (r : CRow) :
    dgetS (mkMedication i r) "Indications_for_Use" =
      some r.Indications_for_Use := rfl

theorem generate_side_effects_isSome (i : ℕ) (r : CRow) :
    (generate_side_effects_response (mkMedication i r)).isSome = true := by
  simp only [generate_side_effects_response, dget_mk_Side_Effects, dget_mk_Trade_Name,
    Option.getD_some, Option.bind_eq_bind, Option.some_bind]
  split <;> rfl

theorem generate_price_isSome (i : ℕ) (r : CRow) :
    (generate_price_response (mkMedication i r)).isSome = true := by
  simp only [generate_price_response, dget_mk_Trade_Name, dget_mk_Price,
    Option.bind_eq_bind, Option.some_bind]
  rfl

theorem generate_usage_isSome (i : ℕ) (r : CRow) :
    (generate_usage_response (mkMedication i r)).isSome = true := by
  simp only [generate_usage_response, dget_mk_Trade_Name, dget_mk_Generic_Name,
    dget_mk_Indications, dget_mk_Dosage_Form, dget_mk_Strength,
    Option.bind_eq_bind, Option.some_bind]
  split <;> rfl

theorem generate_general_info_isSome (i : ℕ) (r : CRow) :
    (generate_general_info_response (mkMedication i r)).isSome = true := by
  simp only [generate_general_info_response, dget_mk_Trade_Name, dget_mk_Generic_Name,
    dget_mk_Category, dget_mk_Indications, dget_mk_Dosage_Form, dget_mk_Strength,
    dget_mk_Quantity, dget_mk_Price, dget_mk_Local_Import, dget_mk_Side_Effects,
    Option.getD_some, Option.bind_eq_bind, Option.some_bind]
  split <;> rfl

theorem categoryMatches_isSome (cond : String) (i : ℕ) (r : CRow) :
    (categoryMatches cond (mkMedication i r)).isSome = true := by
  simp only [categoryMatches, dgetS_mk_Category, dgetS_mk_Indications,
    Option.bind_eq_bind, Option.some_bind]
  split <;> rfl

theorem renderCatMed_isSome (i : ℕ) (r : CRow) :
    (renderCatMed (mkMedication i r)).isSome = true := by
  simp only [renderCatMed, dget_mk_Trade_Name, dget_mk_Generic_Name,
    dget_mk_Indications, dget_mk_Price, Option.bind_eq_bind, Option.some_bind]
  rfl

/-- Every value of a loaded `medications_dict` is some `mkMedication`. -/
theorem mem_dict_values {raws : List RawRow} {med : MedDict}
    (h : med ∈ (load_data raws).medications_dict.map Prod.snd) :
    ∃ i rr, med = mkMedication i rr := by
  obtain ⟨e, he, hee⟩ := List.mem_map.mp h
  obtain ⟨pr, _, hpre⟩ := List.mem_map.mp he
  cases hpre
  exact ⟨pr.1, pr.2, hee.symm⟩

/-- Every medication found by the scans over a loaded table is some
`mkMedication`. -/
theorem found_values {raws : List RawRow} {s : String} {m : MedDict}
    (hm : m ∈ identifyFound (load_data raws) s) :
    ∃ i rr, m = mkMedication i rr := by
  have hdict : ∀ key, dictGet (load_data raws).medications_dict key = some m →
      ∃ i rr, m = mkMedication i rr := by
    intro key hkey
    exact mem_dict_values (List.mem_map_of_mem _ (dictGet_mem hkey))
  rcases mem_foldl_nameScanStep_elim _ _ _ _ m hm with h | h
  · rcases mem_foldl_nameScanStep_elim _ _ _ _ m h with h' | h'
    · cases h'
    · obtain ⟨key, hkey⟩ := h'
      exact hdict key hkey
  · obtain ⟨key, hkey⟩ := h
    exact hdict key hkey

theorem dedupById_total :
    ∀ (rest : List MedDict) (acc : List (FVal × MedDict)),
      (∀ m ∈ rest, (dget m "id").isSome = true) →
      ∃ out, dedupById acc rest = some out := by
  intro rest
  induction rest with
  | nil => intro acc _; exact ⟨acc, rfl⟩
  | cons m rest' ih =>
    intro acc hids
    have h := hids m (List.mem_cons_self _ _)
    cases hk : dget m "id" with
    | none => rw [hk] at h; cases h
    | some k =>
      simp only [dedupById, hk]
      exact ih _ (fun x hx => hids x (List.mem_cons_of_mem _ hx))

theorem dinsertF_values_sub {k : FVal} {v : MedDict} :
    ∀ (acc : List (FVal × MedDict)) (x : MedDict),
      x ∈ (dinsertF acc k v).map Prod.snd → x ∈ acc.map Prod.snd ∨ x = v := by
  intro acc
  induction acc with
  | nil =>
    intro x h
    simp only [dinsertF, List.map_cons, List.map_nil] at h
    exact Or.inr (List.mem_singleton.mp h)
  | cons p ps ih =>
    intro x h
    by_cases hp : p.1 = k
    · simp only [dinsertF, if_pos hp, List.map_cons] at h
      rcases List.mem_cons.mp h with h | h
      · exact Or.inr h
      · exact Or.inl (by rw [List.map_cons]; exact List.mem_cons_of_mem _ h)
    · simp only [dinsertF, if_neg hp, List.map_cons] at h
      rcases List.mem_cons.mp h with h | h
      · exact Or.inl (by rw [List.map_cons, h]; exact List.mem_cons_self _ _)
      · rcases ih x h with h' | h'
        · exact Or.inl (by rw [List.map_cons]; exact List.mem_cons_of_mem _ h')
        · exact Or.inr h'

theorem dedupById_values :
    ∀ (rest : List MedDict) (acc out : List (FVal × MedDict)),
      dedupById acc rest = some out →
      ∀ e ∈ out, e.2 ∈ acc.map Prod.snd ∨ e.2 ∈ rest := by
  intro rest
  induction rest with
  | nil =>
    intro acc out h e he
    have : acc = out := Option.some_inj.mp h
    subst this
    exact Or.inl (List.mem_map_of_mem _ he)
  | cons m rest' ih =>
    intro acc out h e he
    cases hk : dget m "id" with
    | none =>
      simp only [dedupById, hk] at h
      exact Option.noConfusion h
    | some k =>
      simp only [dedupById, hk] at h
      rcases ih _ _ h e he with h' | h'
      · rcases dinsertF_values_sub acc e.2 h' with h'' | h''
        · exact Or.inl h''
        · exact Or.inr (by rw [h'']; exact List.mem_cons_self _ _)
      · exact Or.inr (List.mem_cons_of_mem _ h')

theorem found_has_id (raws : List RawRow) (s : String) :
    ∀ m ∈ identifyFound (load_data raws) s, (dget m "id").isSome = true := by
  intro m hm
  obtain ⟨i, rr, rfl⟩ := found_values hm
  rw [dget_mk_id]
  rfl

theorem identify_isSome (raws : List RawRow) (text : String) :
    ∃ meds, identify_medication_names (load_data raws) text = some meds := by
  obtain ⟨out, hout⟩ :=
    dedupById_total (identifyFound (load_data raws) (preprocess_text text)) []
      (found_has_id raws (preprocess_text text))
  refine ⟨out.map Prod.snd, ?_⟩
  unfold identify_medication_names
  rw [hout]
  rfl

/-- Every medication returned by `_identify_medication_names` on a loaded
table is some `mkMedication`. -/
theorem identify_values {raws : List RawRow} {text : String} {meds : List MedDict}
    (h : identify_medication_names (load_data raws) text = some meds) :
    ∀ m ∈ meds, ∃ i rr, m = mkMedication i rr := by
  unfold identify_medication_names at h
  cases hd : dedupById [] (identifyFound (load_data raws) (preprocess_text text)) with
  | none => rw [hd] at h; cases h
  | some out =>
    rw [hd] at h
    have hmeds : out.map Prod.snd = meds := Option.some_inj.mp h
    intro m hm
    rw [← hmeds] at hm
    obtain ⟨e, he, hee⟩ := List.mem_map.mp hm
    rcases dedupById_values _ _ _ hd e he with h' | h'
    · simp at h'
    · rw [← hee]
      exact found_values h'

theorem optFilter_total {α : Type} {f : α → Option Bool} :
    ∀ l : List α, (∀ x ∈ l, (f x).isSome = true) →
      ∃ out, optFilter f l = some out ∧ ∀ y ∈ out, y ∈ l := by
  intro l
  induction l with
  | nil => intro _; exact ⟨[], rfl, by simp⟩
  | cons x xs ih =>
    intro h
    obtain ⟨b, hb⟩ := Option.isSome_iff_exists.mp (h x (List.mem_cons_self _ _))
    obtain ⟨out, hout, hsub⟩ := ih (fun y hy => h y (List.mem_cons_of_mem _ hy))
    refine ⟨if b then x :: out else out, ?_, ?_⟩
    · simp only [optFilter, hb, hout, Option.bind_eq_bind, Option.some_bind]
      rfl
    · intro y hy
      cases b with
      | true =>
        rw [if_pos rfl] at hy
        rcases List.mem_cons.mp hy with hy | hy
        · rw [hy]; exact List.mem_cons_self _ _
        · exact List.mem_cons_of_mem _ (hsub y hy)
      | false =>
        rw [if_neg (by simp)] at hy
        exact List.mem_cons_of_mem _ (hsub y hy)

theorem optConcatMap_total {α : Type} {f : α → Option String} :
    ∀ l : List α, (∀ x ∈ l, (f x).isSome = true) →
      ∃ s, optConcatMap f l = some s := by
  intro l
  induction l with
  | nil => intro _; exact ⟨"", rfl⟩
  | cons x xs ih =>
    intro h
    obtain ⟨s, hs⟩ := Option.isSome_iff_exists.mp (h x (List.mem_cons_self _ _))
    obtain ⟨rest, hrest⟩ := ih (fun y hy => h y (List.mem_cons_of_mem _ hy))
    refine ⟨s ++ rest, ?_⟩
    simp only [optConcatMap, hs, hrest, Option.bind_eq_bind, Option.some_bind]
    rfl

theorem generate_category_isSome (raws : List RawRow) (cond : String) :
    (generate_category_response (load_data raws) cond).isSome = true := by
  obtain ⟨matching, hm, hsub⟩ :=
    optFilter_total ((load_data raws).medications_dict.map Prod.snd)
      (fun x hx => by
        obtain ⟨i, rr, rfl⟩ := mem_dict_values hx
        exact categoryMatches_isSome cond i rr)
  unfold generate_category_response
  rw [hm]
  simp only [Option.bind_eq_bind, Option.some_bind]
  by_cases hempty : matching = []
  · rw [if_pos hempty]
    rfl
  · rw [if_neg hempty]
    obtain ⟨body, hbody⟩ := optConcatMap_total (matching.take 5)
      (fun x hx => by
        obtain ⟨i, rr, rfl⟩ := mem_dict_values (hsub x (List.take_subset _ _ hx))
        exact renderCatMed_isSome i rr)
    rw [hbody]
    rfl

/-- claim C9 (confirmed): for every question string and every loaded table
— whose records may have blank (empty-string) fields or empty side-effect
lists — `answer_question` evaluates to an answer string without raising:
`_create_medications_dict` defaults every missing field to the empty
string and the side effects to the empty list, so every dict access of
the analysis and of the response templates is defined. -/
theorem answer_question_total (raws : List RawRow) (question : String) :
    (answer_question (load_data raws) question).isSome = true := by
  obtain ⟨meds, hmeds⟩ := identify_isSome raws question
  unfold answer_question
  rw [hmeds]
  simp only [Option.bind_eq_bind, Option.some_bind]
  cases hm : meds with
  | cons med rest =>
    obtain ⟨i, rr, rfl⟩ := identify_values hmeds med (by rw [hm]; exact List.mem_cons_self _ _)
    show (if identify_intent question = "side_effects" then
        generate_side_effects_response (mkMedication i rr)
      else if identify_intent question = "price" then
        generate_price_response (mkMedication i rr)
      else if identify_intent question = "usage" then
        generate_usage_response (mkMedication i rr)
      else generate_general_info_response (mkMedication i rr)).isSome = true
    split
    · exact generate_side_effects_isSome i rr
    · split
      · exact generate_price_isSome i rr
      · split
        · exact generate_usage_isSome i rr
        · exact generate_general_info_isSome i rr
  | nil =>
    cases identify_category_query question with
    | some c => exact generate_category_isSome raws c
    | none =>
      show (if pyIn "store" (pyLower question)
            && (pyIn "medication" (pyLower question) || pyIn "medicine" (pyLower question)) then
          (pure storage_response : Option String)
        else if pyIn "generic" (pyLower question) && pyIn "brand" (pyLower question) then
          pure generic_vs_brand_response
        else pure default_response).isSome = true
      split
      · rfl
      · split
        · rfl
        · rfl
